import Mathlib

/-!
Verification development for the FF14 event-notification core
(`ff14bot/services.py`, `ff14bot/models.py`, `ff14bot/database.py`,
`ff14bot/bot_app.py`, `main.py`).

Shallow embedding notes:
* Timestamps (`datetime`) are modelled as `Int` (UTC seconds);
  `timedelta(days = w)` is `w * 86400`.  Each operation takes the
  current time `now` as an explicit argument (the code calls `_utcnow()`).
* `_source_id` computes a truncated SHA-1 of `"title|time_text|detail_url"`.
  The digest is modelled as the basis string itself (a collision-free
  abstraction of the hash: equal bases give equal ids, and we never rely
  on distinct bases colliding).
* The SQLAlchemy session is created with `autoflush=False`
  (`database.py`, line 8), so a `select` never sees rows that were
  `session.add`-ed but not yet flushed.  We model each service call at
  transaction granularity: queries read the committed store, new objects
  accumulate as pending inserts, and the commit performed by
  `session_scope` (`database.py`) either appends them (assigning ids) or
  fails with `IntegrityError` when a unique constraint is violated, in
  which case the whole transaction rolls back (`Option.none`).
* The `events` table carries `is_active`, `last_seen_at` and `removed_at`
  columns: they are created by the migration in `database.py` (`init_db`)
  and read/written throughout `services.py`, although the ORM class in
  `models.py` does not redeclare them.  The `Event` record below follows
  the schema that `init_db` establishes and `services.py` uses.
-/

/-- A scraped candidate event (`scraper.py`, dataclass `ScrapedEvent`). -/
structure ScrapedEvent where
  title : String
  time_text : String
  detail_url : Option String
  image_url : Option String
  start_at : Option Int
  end_at : Option Int
deriving Repr, DecidableEq

/-- A row of the `events` table (`models.py` class `Event` plus the
`is_active` / `last_seen_at` / `removed_at` columns added by `init_db` in
`database.py` and used by `services.py`). -/
structure Event where
  id : Nat
  source_id : String
  title : String
  time_text : Option String
  detail_url : Option String
  image_url : Option String
  start_at : Option Int
  end_at : Option Int
  is_active : Bool
  last_seen_at : Option Int
  removed_at : Option Int
deriving Repr, DecidableEq

/-- A row of the `subscribers` table (`models.py` class `Subscriber`). -/
structure Subscriber where
  id : Nat
  chat_id : Int
  username : Option String
  first_name : Option String
  last_name : Option String
deriving Repr, DecidableEq

/-- A row of the `event_deliveries` table (`models.py` class
`EventDelivery`); `(event_id, subscriber_id)` carries a unique
constraint (`uq_event_subscriber`). -/
structure EventDelivery where
  id : Nat
  event_id : Nat
  subscriber_id : Nat
  first_sent_at : Option Int
  last_sent_at : Option Int
  reminder_sent_at : Option Int
  confirmed_at : Option Int
deriving Repr, DecidableEq

/-- The committed database state: the three tables plus the
autoincrement counters used to assign primary keys at flush time. -/
structure Store where
  events : List Event
  subscribers : List Subscriber
  deliveries : List EventDelivery
  next_event_id : Nat
  next_delivery_id : Nat
deriving Repr, DecidableEq

/-- Function `_source_id` (`services.py`, lines 16-18): stable identity of a
scraped event, a digest of `"title|time_text|detail_url-or-empty"`.
The hash is modelled by the basis string itself. -/
def _source_id (s : ScrapedEvent) : String :=
  s.title ++ "|" ++ s.time_text ++ "|" ++ s.detail_url.getD ""

/-- Boolean distinctness of a list of strings, used to express the
database's unique-constraint check at flush time. -/
def nodupStr : List String → Bool
  | [] => true
  | x :: xs => !(xs.contains x) && nodupStr xs

/-- Flush-time check for a batch of pending inserts against a uniquely
constrained column: the pending values must be pairwise distinct and
absent from the committed rows. -/
def insertOk (committed pending : List String) : Bool :=
  nodupStr pending && pending.all (fun v => !(committed.contains v))

/-- The update branch of `sync_events` (`services.py`, lines 63-73):
overwrite the mutable fields of a matching event, reactivate it and
refresh `last_seen_at`. -/
def updateEvent (s : ScrapedEvent) (now : Int) (e : Event) : Event :=
  { e with
    title := s.title
    time_text := some s.time_text
    detail_url := s.detail_url
    image_url := s.image_url
    start_at := s.start_at
    end_at := s.end_at
    is_active := true
    last_seen_at := some now
    removed_at := none }

/-- The create branch of `sync_events` (`services.py`, lines 74-88); the
primary key is assigned later, at flush time. -/
def newEvent (s : ScrapedEvent) (now : Int) : Event :=
  { id := 0
    source_id := _source_id s
    title := s.title
    time_text := some s.time_text
    detail_url := s.detail_url
    image_url := s.image_url
    start_at := s.start_at
    end_at := s.end_at
    is_active := true
    last_seen_at := some now
    removed_at := none }

/-- The bulk deactivation (`services.py`, lines 91-96): an event that is
active and whose identity is not among the seen source ids is flipped to
inactive with `removed_at = now`. -/
def deactivate (now : Int) (seen : List String) (e : Event) : Event :=
  if e.is_active && !(seen.contains e.source_id) then
    { e with is_active := false, removed_at := some now }
  else e

/-- In-session state threaded through the loop of `sync_events`:
committed event rows with in-memory updates applied, pending inserts
(invisible to the loop's `select` because `autoflush=False`), and the
`seen_source_ids` / `created` / `updated` accumulators. -/
structure SyncPassState where
  events : List Event
  pending : List Event
  seen : List String
  created : List String
  updated : List String
deriving Repr, DecidableEq

/-- One iteration of the loop in `sync_events` (`services.py`, lines
57-88).  The `select` by `source_id` consults only `events` (committed
rows, with this session's in-place updates visible through the identity
map) — never `pending`, because the session has `autoflush=False`.
Pending inserts receive the primary key they will get at flush time
(`base` is the table's autoincrement counter).  `created`/`updated`
record the affected events by their unique `source_id`. -/
def syncStep (base : Nat) (now : Int) (st : SyncPassState) (s : ScrapedEvent) :
    SyncPassState :=
  let sid := _source_id s
  if st.events.any (fun e => e.source_id == sid) then
    { st with
      events := st.events.map (fun e =>
        if e.source_id == sid then updateEvent s now e else e)
      seen := st.seen ++ [sid]
      updated := st.updated ++ [sid] }
  else
    { st with
      pending := st.pending ++ [{ newEvent s now with id := base + st.pending.length }]
      seen := st.seen ++ [sid]
      created := st.created ++ [sid] }

/-- The body of `sync_events` (`services.py`, lines 50-97) as executed
inside the session: the per-item loop followed by the bulk deactivation,
which only runs when `seen_source_ids` is non-empty (line 91). -/
def sync_events_fn (store : Store) (snapshot : List ScrapedEvent) (now : Int) :
    SyncPassState :=
  let p := snapshot.foldl (syncStep store.next_event_id now) ⟨store.events, [], [], [], []⟩
  if p.seen.isEmpty then p
  else { p with events := p.events.map (deactivate now p.seen) }

/-- Result of a committed `sync_events` transaction. -/
structure SyncResult where
  store : Store
  created : List String
  updated : List String
deriving Repr, DecidableEq

/-- Transaction `sync_events`: the session body followed by
the commit in `session_scope` (`database.py`, lines 57-67).  The commit
flushes the pending inserts, which must satisfy the unique constraint on
`events.source_id` (`models.py`, line 39); on violation the transaction
raises `IntegrityError` and rolls back (`none`). -/
def sync_events (store : Store) (snapshot : List ScrapedEvent) (now : Int) :
    Option SyncResult :=
  let p := sync_events_fn store snapshot now
  if insertOk (store.events.map (·.source_id)) (p.pending.map (·.source_id)) then
    some ⟨{ store with
            events := p.events ++ p.pending
            next_event_id := store.next_event_id + p.pending.length },
          p.created, p.updated⟩
  else none

/-- In-session state of one `ensure_deliveries` call: pending inserts
plus the list the function returns. -/
structure EnsureState where
  pending : List EventDelivery
  result : List EventDelivery
deriving Repr, DecidableEq

/-- One iteration of the loop in `ensure_deliveries` (`services.py`,
lines 104-114): look the `(event_id, subscriber_id)` pair up among the
committed rows (pending inserts are invisible, `autoflush=False`); if
absent, create a fresh delivery with empty ledger fields, carrying the
primary key it will receive at flush time. -/
def ensureStep (store : Store) (event_id : Nat) (st : EnsureState) (sub_id : Nat) :
    EnsureState :=
  match store.deliveries.find? (fun d =>
      d.event_id == event_id && d.subscriber_id == sub_id) with
  | some d => { st with result := st.result ++ [d] }
  | none =>
      let d : EventDelivery :=
        { id := store.next_delivery_id + st.pending.length
          event_id := event_id
          subscriber_id := sub_id
          first_sent_at := none
          last_sent_at := none
          reminder_sent_at := none
          confirmed_at := none }
      { pending := st.pending ++ [d], result := st.result ++ [d] }

/-- The body of `ensure_deliveries` (`services.py`, lines 100-115) as
executed inside the session. -/
def ensure_deliveries_fn (store : Store) (event_id : Nat) (subs : List Nat) :
    EnsureState :=
  subs.foldl (ensureStep store event_id) ⟨[], []⟩

/-- Flush-time check of the `uq_event_subscriber` unique constraint
(`models.py`, lines 60-62) for a batch of pending delivery inserts. -/
def deliveryInsertOk (committed pending : List EventDelivery) : Bool :=
  (pending.map (fun d => (d.event_id, d.subscriber_id))).Nodup &&
  pending.all (fun p => !(committed.any (fun d =>
    d.event_id == p.event_id && d.subscriber_id == p.subscriber_id)))

/-- Transaction `ensure_deliveries`: the loop followed by the
commit in `session_scope`; a violation of `uq_event_subscriber` raises
`IntegrityError` and rolls the transaction back (`none`). -/
def ensure_deliveries (store : Store) (event_id : Nat) (subs : List Nat) :
    Option (Store × List EventDelivery) :=
  let st := ensure_deliveries_fn store event_id subs
  if deliveryInsertOk store.deliveries st.pending then
    some ({ store with
            deliveries := store.deliveries ++ st.pending
            next_delivery_id := store.next_delivery_id + st.pending.length },
          st.result)
  else none

/-- Function `mark_sent` (`services.py`, lines 153-161): set `first_sent_at` only
when it is still null, always set `last_sent_at`, and when the reminder
flag is given set `reminder_sent_at` (unconditionally, line 161). -/
def mark_sent (d : EventDelivery) (when : Int) (reminder : Bool) : EventDelivery :=
  let d1 := match d.first_sent_at with
    | none => { d with first_sent_at := some when }
    | some _ => d
  let d2 := { d1 with last_sent_at := some when }
  if reminder then { d2 with reminder_sent_at := some when } else d2

/-- Function `mark_confirmed` (`services.py`, lines 164-166): assigns
`confirmed_at := when` unconditionally. -/
def mark_confirmed (d : EventDelivery) (when : Int) : EventDelivery :=
  { d with confirmed_at := some when }

/-- The event-side condition of the `pending_reminders` query
(`services.py`, lines 136-147): the joined event is active and has a
non-null `end_at` with `now ≤ end_at ≤ now + within_days`. -/
def reminderEventOk (now deadline : Int) (e : Event) : Bool :=
  e.is_active &&
  match e.end_at with
  | none => false
  | some t => decide (t ≤ deadline) && decide (now ≤ t)

/-- Query `pending_reminders` (`services.py`, lines 129-150): select the
deliveries joined to an event satisfying `reminderEventOk`, with both
`confirmed_at` and `reminder_sent_at` null; the `source_id` exclusion is
added to the query only when `exclude_source_ids` is truthy, i.e.
non-empty (line 148). -/
def pending_reminders (store : Store) (now : Int) (within_days : Int)
    (exclude_source_ids : List String) : List EventDelivery :=
  let deadline := now + within_days * 86400
  store.deliveries.filter (fun d =>
    d.confirmed_at == none &&
    d.reminder_sent_at == none &&
    store.events.any (fun e =>
      e.id == d.event_id &&
      reminderEventOk now deadline e &&
      (exclude_source_ids.isEmpty || !(exclude_source_ids.contains e.source_id))))

/-- Send helper `send_event_to_subscriber` (`notifier.py`, lines 40-64) abstracted
over the chat transport: when the platform send succeeds the delivery is
`mark_sent`; when it raises, `mark_sent` is not reached and the
exception propagates (`none`).  `sendOk` gives the outcome of the
platform call per delivery id. -/
def send_event (sendOk : Nat → Bool) (now : Int) (is_reminder : Bool)
    (d : EventDelivery) : Option EventDelivery :=
  if sendOk d.id then some (mark_sent d now is_reminder) else none

/-- The dispatch loop of `handle_list` (`bot_app.py`, lines 78-94, same
shape in `handle_incomplete`): each send is wrapped in `try/except`, a
failure is logged by `event_id` and the loop continues with the next
delivery.  Returns the deliveries after the batch (successes marked
sent, failures untouched) and the logged `event_id`s of the failures. -/
def handleListDispatch (sendOk : Nat → Bool) (now : Int) :
    List EventDelivery → List EventDelivery × List Nat
  | [] => ([], [])
  | d :: rest =>
      let r := handleListDispatch sendOk now rest
      match send_event sendOk now false d with
      | some d1 => (d1 :: r.1, r.2)
      | none => (d :: r.1, d.event_id :: r.2)

/-- The dispatch loop of `run_scan` (`main.py`, lines 64-69; the loop in
`run_countdown`, lines 89-92, has the same shape): the sends are not
wrapped in `try/except`, so the first failure propagates out of the
`session_scope` block, which rolls the whole transaction back (`none`);
later deliveries in the batch are never attempted. -/
def runScanDispatch (sendOk : Nat → Bool) (now : Int) :
    List EventDelivery → Option (List EventDelivery)
  | [] => some []
  | d :: rest =>
      match send_event sendOk now false d with
      | some d1 => (runScanDispatch sendOk now rest).map (d1 :: ·)
      | none => none

/-- The core mutating operations a caller can run against the store
after a delivery exists, each as its own committed transaction:
`mark_sent` on one delivery (as committed by the callers in `main.py` /
`bot_app.py`), `sync_events`, and `ensure_deliveries`. -/
inductive CoreOp where
  | markSent (delivery_id : Nat) (when : Int) (reminder : Bool)
  | syncEvents (snapshot : List ScrapedEvent) (now : Int)
  | ensureDeliveries (event_id : Nat) (subs : List Nat)
deriving Repr, DecidableEq

/-- Apply one core operation as a transaction; a transaction that fails
its flush-time constraint check rolls back and leaves the store
unchanged. -/
def applyOp (store : Store) : CoreOp → Store
  | .markSent did when reminder =>
      { store with deliveries := store.deliveries.map (fun d =>
          if d.id == did then mark_sent d when reminder else d) }
  | .syncEvents snapshot now =>
      match sync_events store snapshot now with
      | some r => r.store
      | none => store
  | .ensureDeliveries eid subs =>
      match ensure_deliveries store eid subs with
      | some p => p.1
      | none => store

/-- Apply a sequence of core operations. -/
def applyOps (store : Store) (ops : List CoreOp) : Store :=
  ops.foldl applyOp store

/-! ### Derived descriptions of one synchronizer pass

The following definitions do not embed new source code; they are closed
forms for the result of the `sync_events` loop, proved equal to the
fold below and used to state and prove the claims. -/

/-- The source identities of a snapshot, in order (`seen_source_ids`). -/
def seenIds (S : List ScrapedEvent) : List String := S.map _source_id

/-- Whether the snapshot item's identity matches a committed event row. -/
def presentB (es : List Event) (s : ScrapedEvent) : Bool :=
  es.any (fun e => e.source_id == _source_id s)

/-- The last snapshot item carrying a given source identity. -/
def lastOcc (sid : String) : List ScrapedEvent → Option ScrapedEvent
  | [] => none
  | s :: rest =>
      match lastOcc sid rest with
      | some s' => some s'
      | none => if _source_id s == sid then some s else none

/-- Closed form of the event rows after the `sync_events` loop: each row
matched by the snapshot holds the fields of its last matching item. -/
def passEvents (es : List Event) (now : Int) (S : List ScrapedEvent) : List Event :=
  es.map (fun e =>
    match lastOcc e.source_id S with
    | some s => updateEvent s now e
    | none => e)

/-- Closed form of the pending inserts after the `sync_events` loop: one
per snapshot item whose identity matches no committed row, with flush
ids counting up from `base`. -/
def pendingOf (es : List Event) (now : Int) : Nat → List ScrapedEvent → List Event
  | _, [] => []
  | base, s :: rest =>
      if presentB es s then pendingOf es now base rest
      else { newEvent s now with id := base } :: pendingOf es now (base + 1) rest

/-- Closed form of the `created` accumulator. -/
def createdSids (es : List Event) (S : List ScrapedEvent) : List String :=
  (S.filter (fun s => !(presentB es s))).map _source_id

/-- Closed form of the `updated` accumulator. -/
def updatedSids (es : List Event) (S : List ScrapedEvent) : List String :=
  (S.filter (fun s => presentB es s)).map _source_id

/-- Refresh `last_seen_at` on the rows whose identity is in `seen`. -/
def refreshSeen (seen : List String) (now : Int) (e : Event) : Event :=
  if seen.contains e.source_id then { e with last_seen_at := some now } else e

/-- Look an event row up by its (unique) source identity. -/
def findEvent (es : List Event) (sid : String) : Option Event :=
  es.find? (fun e => e.source_id == sid)

/-- Whether the ledger holds a row for the given pair. -/
def hasPair (ds : List EventDelivery) (eid sub : Nat) : Bool :=
  ds.any (fun d => d.event_id == eid && d.subscriber_id == sub)

/-- The `(event_id, subscriber_id)` pairs of a ledger. -/
def pairsOf (ds : List EventDelivery) : List (Nat × Nat) :=
  ds.map (fun d => (d.event_id, d.subscriber_id))

/-- The in-place update applied by one present-case iteration of the
`sync_events` loop. -/
def updMap (s0 : ScrapedEvent) (now : Int) (es : List Event) : List Event :=
  es.map (fun e => if e.source_id == _source_id s0 then updateEvent s0 now e else e)

/-- Closed form of the event rows committed by a successful
`sync_events` transaction. -/
def syncedEvents (store : Store) (S : List ScrapedEvent) (now : Int) : List Event :=
  (if S.isEmpty then store.events
   else (passEvents store.events now S).map (deactivate now (seenIds S)))
  ++ pendingOf store.events now store.next_event_id S

/-- A sequence of `mark_sent` calls on one delivery, each with its
timestamp and reminder flag. -/
def runMarkSent (d : EventDelivery) (calls : List (Int × Bool)) : EventDelivery :=
  calls.foldl (fun d c => mark_sent d c.1 c.2) d

/-- The committed-row lookup performed by each `ensure_deliveries`
iteration (`services.py`, lines 105-110). -/
def foundPair (store : Store) (eid sub : Nat) : Option EventDelivery :=
  store.deliveries.find? (fun d => d.event_id == eid && d.subscriber_id == sub)

/-- A freshly created delivery row with flush id `b`. -/
def freshDelivery (b eid sub : Nat) : EventDelivery :=
  ⟨b, eid, sub, none, none, none, none⟩

/-- Closed form of the pending inserts of one `ensure_deliveries` call. -/
def pendingDels (store : Store) (eid : Nat) : Nat → List Nat → List EventDelivery
  | _, [] => []
  | b, sub :: rest =>
      match foundPair store eid sub with
      | some _ => pendingDels store eid b rest
      | none => freshDelivery b eid sub :: pendingDels store eid (b + 1) rest

/-- Closed form of the list returned by one `ensure_deliveries` call. -/
def resultDels (store : Store) (eid : Nat) : Nat → List Nat → List EventDelivery
  | _, [] => []
  | b, sub :: rest =>
      match foundPair store eid sub with
      | some d => d :: resultDels store eid b rest
      | none => freshDelivery b eid sub :: resultDels store eid (b + 1) rest

/-- One `(event_id, subscriber ids)` call of `ensure_deliveries`,
applied as a transaction (rolled back on constraint violation). -/
def applyEnsure (store : Store) (c : Nat × List Nat) : Store :=
  match ensure_deliveries store c.1 c.2 with
  | some p => p.1
  | none => store

/-- A sequence of `ensure_deliveries` transactions. -/
def applyEnsures (store : Store) (calls : List (Nat × List Nat)) : Store :=
  calls.foldl applyEnsure store

/-- The per-row function underlying `passEvents`. -/
def passF (S : List ScrapedEvent) (now : Int) (e : Event) : Event :=
  match lastOcc e.source_id S with
  | some s => updateEvent s now e
  | none => e

/-- Shape invariant of the committed event rows after a successful
`sync_events` on a non-empty snapshot: rows matched by the snapshot are
a fixed point of the corresponding update, unmatched rows are inactive. -/
def SyncedInv (S : List ScrapedEvent) (now1 : Int) (e : Event) : Prop :=
  (∀ s, lastOcc e.source_id S = some s → e = updateEvent s now1 e) ∧
  (lastOcc e.source_id S = none → e.is_active = false)


/-! ### Basic lemmas -/

theorem updateEvent_source_id (s : ScrapedEvent) (now : Int) (e : Event) :
    (updateEvent s now e).source_id = e.source_id := rfl

theorem updateEvent_updateEvent (s : ScrapedEvent) (n1 n2 : Int) (e : Event) :
    updateEvent s n2 (updateEvent s n1 e) = updateEvent s n2 e := rfl

theorem updateEvent_refresh (s : ScrapedEvent) (n1 n2 : Int) (e : Event) :
    updateEvent s n2 (updateEvent s n1 e) =
      { updateEvent s n1 e with last_seen_at := some n2 } := rfl

theorem lastOcc_cons_ne (sid : String) (s0 : ScrapedEvent) (S : List ScrapedEvent)
    (h : ¬ _source_id s0 = sid) :
    lastOcc sid (s0 :: S) = lastOcc sid S := by
  cases h' : lastOcc sid S with
  | none => simp [lastOcc, h', h]
  | some s' => simp [lastOcc, h']

theorem lastOcc_cons_some (sid : String) (s0 : ScrapedEvent) (S : List ScrapedEvent)
    (s' : ScrapedEvent) (h : lastOcc sid S = some s') :
    lastOcc sid (s0 :: S) = some s' := by
  simp [lastOcc, h]

theorem lastOcc_cons_none (sid : String) (s0 : ScrapedEvent) (S : List ScrapedEvent)
    (h : lastOcc sid S = none) :
    lastOcc sid (s0 :: S) = if _source_id s0 == sid then some s0 else none := by
  simp only [lastOcc, h]

theorem lastOcc_isSome_eq_contains (sid : String) (S : List ScrapedEvent) :
    (lastOcc sid S).isSome = (seenIds S).contains sid := by
  induction S with
  | nil => rfl
  | cons s0 S ih =>
    by_cases h : _source_id s0 = sid
    · cases hS : lastOcc sid S with
      | none => simp [lastOcc_cons_none sid s0 S hS, seenIds, h]
      | some s' => simp [lastOcc_cons_some sid s0 S s' hS, seenIds, h]
    · rw [lastOcc_cons_ne sid s0 S h]
      simp only [seenIds, List.map_cons, List.contains_cons]
      rw [ih]
      simp [seenIds, Ne.symm h]

theorem lastOcc_sid (sid : String) (S : List ScrapedEvent) (s : ScrapedEvent)
    (h : lastOcc sid S = some s) : _source_id s = sid := by
  induction S with
  | nil => simp [lastOcc] at h
  | cons s0 S ih =>
    by_cases h0 : _source_id s0 = sid
    · cases hS : lastOcc sid S with
      | none =>
        rw [lastOcc_cons_none sid s0 S hS] at h
        simp [h0] at h
        rw [← h, h0]
      | some s' =>
        rw [lastOcc_cons_some sid s0 S s' hS] at h
        cases h
        exact ih hS
    · rw [lastOcc_cons_ne sid s0 S h0] at h
      exact ih h

theorem updMap_source_id (s0 : ScrapedEvent) (now : Int) (e : Event) :
    (if e.source_id == _source_id s0 then updateEvent s0 now e else e).source_id =
      e.source_id := by
  split <;> rfl

theorem any_sid_map (f : Event → Event) (hf : ∀ e, (f e).source_id = e.source_id)
    (es : List Event) (sid : String) :
    (es.map f).any (fun e => e.source_id == sid) =
      es.any (fun e => e.source_id == sid) := by
  induction es with
  | nil => rfl
  | cons e es ih => simp only [List.map_cons, List.any_cons, hf, ih]

theorem presentB_updMap (s0 : ScrapedEvent) (now : Int) (es : List Event)
    (s : ScrapedEvent) : presentB (updMap s0 now es) s = presentB es s :=
  any_sid_map _ (fun e => updMap_source_id s0 now e) es (_source_id s)

theorem pendingOf_congr (es es' : List Event) (now : Int)
    (h : ∀ s, presentB es' s = presentB es s) :
    ∀ (b : Nat) (S : List ScrapedEvent),
      pendingOf es' now b S = pendingOf es now b S := by
  intro b S
  induction S generalizing b with
  | nil => rfl
  | cons s S ih =>
    simp only [pendingOf, h]
    by_cases hp : presentB es s <;> simp [hp, ih]

theorem createdSids_congr (es es' : List Event) (S : List ScrapedEvent)
    (h : ∀ s, presentB es' s = presentB es s) :
    createdSids es' S = createdSids es S := by
  unfold createdSids
  rw [List.filter_congr (fun s _ => by rw [h])]

theorem updatedSids_congr (es es' : List Event) (S : List ScrapedEvent)
    (h : ∀ s, presentB es' s = presentB es s) :
    updatedSids es' S = updatedSids es S := by
  unfold updatedSids
  rw [List.filter_congr (fun s _ => by rw [h])]

theorem passEvents_nil (es : List Event) (now : Int) :
    passEvents es now [] = es := by
  simp [passEvents, lastOcc]

theorem updateEvent_absorb (s1 s2 : ScrapedEvent) (n1 n2 : Int) (e : Event) :
    updateEvent s2 n2 (updateEvent s1 n1 e) = updateEvent s2 n2 e := rfl

theorem passEvents_cons_update (es : List Event) (now : Int) (s0 : ScrapedEvent)
    (S : List ScrapedEvent) :
    passEvents (updMap s0 now es) now S = passEvents es now (s0 :: S) := by
  unfold passEvents updMap
  rw [List.map_map]
  apply List.map_congr_left
  intro e _
  simp only [Function.comp]
  by_cases h : e.source_id = _source_id s0
  · rw [if_pos (by simp [h]), updateEvent_source_id]
    cases hS : lastOcc e.source_id S with
    | some s' =>
      rw [lastOcc_cons_some _ _ _ _ hS]
      simp [updateEvent_absorb]
    | none =>
      rw [lastOcc_cons_none _ _ _ hS]
      simp [h]
  · rw [if_neg (by simp [h]), lastOcc_cons_ne _ _ _ (fun hh => h hh.symm)]

theorem passEvents_cons_absent (es : List Event) (now : Int) (s0 : ScrapedEvent)
    (S : List ScrapedEvent) (h : presentB es s0 = false) :
    passEvents es now (s0 :: S) = passEvents es now S := by
  unfold passEvents
  apply List.map_congr_left
  intro e he
  have h' : ∀ x ∈ es, (x.source_id == _source_id s0) = false := by
    simpa [presentB, List.any_eq_false] using h
  have : ¬ _source_id s0 = e.source_id := by
    intro hh
    have := h' e he
    simp [hh] at this
  rw [lastOcc_cons_ne _ _ _ this]

theorem syncFold_char (base : Nat) (now : Int) (S : List ScrapedEvent) :
    ∀ (es pend : List Event) (seen c u : List String),
    List.foldl (syncStep base now) ⟨es, pend, seen, c, u⟩ S =
      ⟨passEvents es now S,
       pend ++ pendingOf es now (base + pend.length) S,
       seen ++ seenIds S,
       c ++ createdSids es S,
       u ++ updatedSids es S⟩ := by
  induction S with
  | nil =>
    intro es pend seen c u
    simp [passEvents_nil, pendingOf, seenIds, createdSids, updatedSids]
  | cons s0 S ih =>
    intro es pend seen c u
    rw [List.foldl_cons]
    by_cases hp : presentB es s0
    · have hp' : (es.any fun e => e.source_id == _source_id s0) = true := hp
      have hstep : syncStep base now ⟨es, pend, seen, c, u⟩ s0 =
          ⟨updMap s0 now es, pend, seen ++ [_source_id s0], c,
           u ++ [_source_id s0]⟩ := by
        simp only [syncStep, updMap]
        rw [if_pos hp']
      rw [hstep, ih]
      have hcong : ∀ s, presentB (updMap s0 now es) s = presentB es s :=
        presentB_updMap s0 now es
      rw [passEvents_cons_update, pendingOf_congr es (updMap s0 now es) now hcong,
          createdSids_congr es (updMap s0 now es) S hcong,
          updatedSids_congr es (updMap s0 now es) S hcong]
      simp [pendingOf, hp, seenIds, createdSids, updatedSids, List.filter_cons,
        List.append_assoc]
    · have hp0 : presentB es s0 = false := by simpa using hp
      have hp' : (es.any fun e => e.source_id == _source_id s0) = false := hp0
      have hstep : syncStep base now ⟨es, pend, seen, c, u⟩ s0 =
          ⟨es, pend ++ [{ newEvent s0 now with id := base + pend.length }],
           seen ++ [_source_id s0], c ++ [_source_id s0], u⟩ := by
        simp only [syncStep]
        rw [if_neg (by simp [hp'])]
      rw [hstep, ih]
      rw [passEvents_cons_absent es now s0 S hp0]
      simp [pendingOf, hp0, seenIds, createdSids, updatedSids, List.filter_cons,
        List.append_assoc, Nat.add_assoc]

theorem sync_events_fn_char (store : Store) (S : List ScrapedEvent) (now : Int) :
    sync_events_fn store S now =
      ⟨(if S.isEmpty then store.events
        else (passEvents store.events now S).map (deactivate now (seenIds S))),
       pendingOf store.events now store.next_event_id S,
       seenIds S, createdSids store.events S, updatedSids store.events S⟩ := by
  unfold sync_events_fn
  rw [syncFold_char]
  cases S with
  | nil => simp [passEvents_nil, pendingOf, seenIds, createdSids, updatedSids]
  | cons s S => simp [seenIds]

theorem sync_events_char (store : Store) (S : List ScrapedEvent) (now : Int) :
    sync_events store S now =
      if insertOk (store.events.map (·.source_id))
          ((pendingOf store.events now store.next_event_id S).map (·.source_id)) then
        some ⟨{ store with
                events := syncedEvents store S now
                next_event_id := store.next_event_id +
                  (pendingOf store.events now store.next_event_id S).length },
              createdSids store.events S, updatedSids store.events S⟩
      else none := by
  unfold sync_events syncedEvents
  rw [sync_events_fn_char]

theorem mark_sent_last (d : EventDelivery) (w : Int) (r : Bool) :
    (mark_sent d w r).last_sent_at = some w := by
  cases hf : d.first_sent_at <;> cases r <;> simp [mark_sent, hf]

theorem mark_sent_first_none (d : EventDelivery) (w : Int) (r : Bool)
    (h : d.first_sent_at = none) : (mark_sent d w r).first_sent_at = some w := by
  cases r <;> simp [mark_sent, h]

theorem mark_sent_first_some (d : EventDelivery) (w : Int) (r : Bool) (t : Int)
    (h : d.first_sent_at = some t) : (mark_sent d w r).first_sent_at = some t := by
  cases r <;> simp [mark_sent, h]

theorem mark_sent_confirmed_at (d : EventDelivery) (w : Int) (r : Bool) :
    (mark_sent d w r).confirmed_at = d.confirmed_at := by
  cases hf : d.first_sent_at <;> cases r <;> simp [mark_sent, hf]

theorem mark_sent_id (d : EventDelivery) (w : Int) (r : Bool) :
    (mark_sent d w r).id = d.id := by
  cases hf : d.first_sent_at <;> cases r <;> simp [mark_sent, hf]

theorem runMarkSent_first (calls : List (Int × Bool)) :
    ∀ d : EventDelivery,
    (runMarkSent d calls).first_sent_at =
      (match d.first_sent_at, calls with
       | some t, _ => some t
       | none, [] => none
       | none, c :: _ => some c.1) := by
  induction calls with
  | nil => intro d; cases hf : d.first_sent_at <;> simp [runMarkSent, hf]
  | cons c cs ih =>
    intro d
    have hstep : runMarkSent d (c :: cs) = runMarkSent (mark_sent d c.1 c.2) cs := rfl
    rw [hstep, ih]
    cases hf : d.first_sent_at with
    | none => simp [mark_sent_first_none d c.1 c.2 hf]
    | some t => simp [mark_sent_first_some d c.1 c.2 t hf]

theorem runMarkSent_last (calls : List (Int × Bool)) :
    ∀ d : EventDelivery,
    (runMarkSent d calls).last_sent_at =
      (match calls.getLast? with
       | some c => some c.1
       | none => d.last_sent_at) := by
  induction calls with
  | nil => intro d; simp [runMarkSent]
  | cons c cs ih =>
    intro d
    have hstep : runMarkSent d (c :: cs) = runMarkSent (mark_sent d c.1 c.2) cs := rfl
    rw [hstep, ih]
    cases cs with
    | nil => simp [mark_sent_last]
    | cons c' cs' =>
      rw [List.getLast?_cons_cons]
      cases hx : (c' :: cs').getLast? with
      | none =>
        have : (c' :: cs').getLast?.isSome := List.getLast?_isSome.mpr (by simp)
        rw [hx] at this
        simp at this
      | some x => simp

/-- C3.  For every Delivery and every sequence of `mark_sent` calls on
it, `first_sent_at` is assigned by the first call on which it is null
and is never changed by any later call, while `last_sent_at` is updated
to the given timestamp on every call.  (`services.py`, lines 153-161.) -/
theorem C3_first_sent_write_once (d : EventDelivery) (w : Int) (r : Bool)
    (calls : List (Int × Bool)) :
    (mark_sent d w r).last_sent_at = some w ∧
    (runMarkSent d calls).first_sent_at =
      (match d.first_sent_at, calls with
       | some t, _ => some t
       | none, [] => none
       | none, c :: _ => some c.1) ∧
    (runMarkSent d calls).last_sent_at =
      (match calls.getLast? with
       | some c => some c.1
       | none => d.last_sent_at) :=
  ⟨mark_sent_last d w r, runMarkSent_first calls d, runMarkSent_last calls d⟩

/-- C4 counterexample.  `mark_confirmed` is not a no-op on a delivery
whose `confirmed_at` is already set: called with timestamp 9 on a
delivery confirmed at 5, it overwrites the stored value
(`services.py`, line 166 assigns unconditionally). -/
theorem C4_counterexample :
    (mark_confirmed ⟨1, 1, 1, none, none, none, some 5⟩ 9).confirmed_at = some 9 ∧
    mark_confirmed ⟨1, 1, 1, none, none, none, some 5⟩ 9 ≠
      ⟨1, 1, 1, none, none, none, some 5⟩ := by
  decide

/-- C4 amended.  `mark_confirmed` unconditionally assigns
`confirmed_at := when`, overwriting any previously stored confirmation
timestamp (so a second call is not a no-op, though the delivery stays
confirmed); all other fields are unchanged. -/
theorem C4_mark_confirmed_overwrites (d : EventDelivery) (w : Int) :
    (mark_confirmed d w).confirmed_at = some w ∧
    (mark_confirmed d w).confirmed_at ≠ none ∧
    (mark_confirmed d w).id = d.id ∧
    (mark_confirmed d w).event_id = d.event_id ∧
    (mark_confirmed d w).subscriber_id = d.subscriber_id ∧
    (mark_confirmed d w).first_sent_at = d.first_sent_at ∧
    (mark_confirmed d w).last_sent_at = d.last_sent_at ∧
    (mark_confirmed d w).reminder_sent_at = d.reminder_sent_at := by
  refine ⟨rfl, by simp [mark_confirmed], rfl, rfl, rfl, rfl, rfl, rfl⟩

/-- C5 counterexample.  A reminder-flagged `mark_sent` call does not
preserve an already-set `reminder_sent_at`: on a delivery whose
reminder was recorded at 5, a second reminder-flagged call at 9
overwrites it (`services.py`, line 161 assigns unconditionally). -/
theorem C5_counterexample :
    (mark_sent ⟨1, 1, 1, some 1, some 1, some 5, none⟩ 9 true).reminder_sent_at =
      some 9 ∧
    (mark_sent ⟨1, 1, 1, some 1, some 1, some 5, none⟩ 9 true).reminder_sent_at ≠
      some 5 := by
  decide

/-- C5 amended.  When `mark_sent` is called with the reminder flag set,
it assigns `reminder_sent_at := when` unconditionally — also when a
previous reminder timestamp is already stored. -/
theorem C5_reminder_overwrites (d : EventDelivery) (w : Int) :
    (mark_sent d w true).reminder_sent_at = some w := by
  cases hf : d.first_sent_at <;> simp [mark_sent, hf]

/-- C10.  `sync_events` on an empty snapshot returns empty `created` and
`updated` lists, skips the bulk deactivation (`services.py`, line 91:
`if seen_source_ids:`), and leaves the store — in particular every
event's `is_active` and `removed_at` — completely unchanged. -/
theorem C10_empty_snapshot_noop (store : Store) (now : Int) :
    sync_events store [] now = some ⟨store, [], []⟩ := by
  rw [sync_events_char]
  simp [insertOk, nodupStr, pendingOf, syncedEvents, createdSids, updatedSids,
    passEvents_nil]

theorem reminderEventOk_iff (now deadline : Int) (e : Event) :
    reminderEventOk now deadline e = true ↔
      (e.is_active = true ∧ ∃ t, e.end_at = some t ∧ now ≤ t ∧ t ≤ deadline) := by
  unfold reminderEventOk
  cases he : e.end_at with
  | none => simp [he]
  | some t =>
    simp only [he, Bool.and_eq_true, decide_eq_true_eq, Option.some.injEq]
    constructor
    · rintro ⟨ha, h1, h2⟩
      exact ⟨ha, t, rfl, h2, h1⟩
    · rintro ⟨ha, t', ht', h1, h2⟩
      cases ht'
      exact ⟨ha, h2, h1⟩

theorem exclCond_iff (excl : List String) (x : String) :
    (excl.isEmpty || !(excl.contains x)) = true ↔ x ∉ excl := by
  cases excl with
  | nil => simp
  | cons a l => simp [List.isEmpty_cons]

/-- C7.  `pending_reminders(within_days, exclude_source_ids)` returns
exactly the ledger rows whose joined event is active with a non-null
`end_at` inside `[now, now + within_days]`, whose `confirmed_at` and
`reminder_sent_at` are null, and whose event identity is not excluded;
rows with a null, past, or beyond-window `end_at` are never returned
(`services.py`, lines 129-150). -/
theorem C7_pending_reminders_iff (store : Store) (now within_days : Int)
    (excl : List String) (d : EventDelivery) :
    d ∈ pending_reminders store now within_days excl ↔
      (d ∈ store.deliveries ∧ d.confirmed_at = none ∧ d.reminder_sent_at = none ∧
       ∃ e, e ∈ store.events ∧ e.id = d.event_id ∧ e.is_active = true ∧
         (∃ t, e.end_at = some t ∧ now ≤ t ∧ t ≤ now + within_days * 86400) ∧
         e.source_id ∉ excl) := by
  unfold pending_reminders
  rw [List.mem_filter]
  simp only [Bool.and_eq_true, List.any_eq_true, beq_iff_eq, reminderEventOk_iff,
    exclCond_iff]
  constructor
  · rintro ⟨hmem, ⟨hconf, hrem⟩, e, he, ⟨⟨hid, hact, hwin⟩, hexcl⟩⟩
    exact ⟨hmem, hconf, hrem, e, he, hid, hact, hwin, hexcl⟩
  · rintro ⟨hmem, hconf, hrem, e, he, hid, hact, hwin, hexcl⟩
    exact ⟨hmem, ⟨hconf, hrem⟩, e, he, ⟨⟨hid, hact, hwin⟩, hexcl⟩⟩

theorem handleListDispatch_char (sendOk : Nat → Bool) (now : Int)
    (ds : List EventDelivery) :
    handleListDispatch sendOk now ds =
      (ds.map (fun d => if sendOk d.id then mark_sent d now false else d),
       (ds.filter (fun d => !(sendOk d.id))).map (·.event_id)) := by
  induction ds with
  | nil => rfl
  | cons d rest ih =>
    simp only [handleListDispatch, send_event, ih, List.map_cons, List.filter_cons]
    by_cases h : sendOk d.id <;> simp [h]

theorem runScanDispatch_char (sendOk : Nat → Bool) (now : Int)
    (ds : List EventDelivery) :
    runScanDispatch sendOk now ds =
      (if ds.all (fun d => sendOk d.id) then
        some (ds.map (fun d => mark_sent d now false)) else none) := by
  induction ds with
  | nil => rfl
  | cons d rest ih =>
    simp only [runScanDispatch, send_event, ih, List.all_cons, List.map_cons]
    by_cases h : sendOk d.id
    · by_cases hr : rest.all (fun d => sendOk d.id) <;> simp [h, hr]
    · simp [h]

/-- C8 counterexample.  In the `run_scan` dispatch batch (`main.py`,
lines 64-69, no `try/except`), a send failure for the first delivery
aborts the batch and rolls the transaction back: with a transport that
fails for delivery 1 and succeeds for delivery 2, the scan batch yields
`none` — delivery 2 is never attempted and no success is committed —
while the `handle_list` batch (`bot_app.py`, lines 78-94) attempts both
and only logs the failed event id. -/
theorem C8_counterexample :
    runScanDispatch (fun i => i == 2) 0
      [⟨1, 10, 1, none, none, none, none⟩, ⟨2, 11, 2, none, none, none, none⟩] =
      none ∧
    send_event (fun i => i == 2) 0 false ⟨2, 11, 2, none, none, none, none⟩ ≠
      none ∧
    handleListDispatch (fun i => i == 2) 0
      [⟨1, 10, 1, none, none, none, none⟩, ⟨2, 11, 2, none, none, none, none⟩] =
      ([⟨1, 10, 1, none, none, none, none⟩, ⟨2, 11, 2, some 0, some 0, none, none⟩],
       [10]) := by
  decide

/-- C8 amended.  Only the interactive `/list` and `/incomplete` dispatch
batches catch per-delivery send failures: there each delivery is
attempted regardless of earlier failures, successes are marked sent and
the failures' event ids are logged.  The `run_scan` / `run_countdown`
batches (`main.py`) propagate the first failure, so they complete (and
commit) exactly when every send succeeds, and otherwise abort the whole
batch. -/
theorem C8_dispatch_isolation (sendOk : Nat → Bool) (now : Int)
    (ds : List EventDelivery) :
    handleListDispatch sendOk now ds =
      (ds.map (fun d => if sendOk d.id then mark_sent d now false else d),
       (ds.filter (fun d => !(sendOk d.id))).map (·.event_id)) ∧
    runScanDispatch sendOk now ds =
      (if ds.all (fun d => sendOk d.id) then
        some (ds.map (fun d => mark_sent d now false)) else none) :=
  ⟨handleListDispatch_char sendOk now ds, runScanDispatch_char sendOk now ds⟩

theorem ensureFold_char (store : Store) (eid : Nat) (subs : List Nat) :
    ∀ (p res : List EventDelivery),
    subs.foldl (ensureStep store eid) ⟨p, res⟩ =
      ⟨p ++ pendingDels store eid (store.next_delivery_id + p.length) subs,
       res ++ resultDels store eid (store.next_delivery_id + p.length) subs⟩ := by
  induction subs with
  | nil => intro p res; simp [pendingDels, resultDels]
  | cons sub rest ih =>
    intro p res
    rw [List.foldl_cons]
    cases hf : foundPair store eid sub with
    | some d =>
      have hstep : ensureStep store eid ⟨p, res⟩ sub = ⟨p, res ++ [d]⟩ := by
        unfold ensureStep
        unfold foundPair at hf
        rw [hf]
      rw [hstep, ih]
      simp [pendingDels, resultDels, hf, List.append_assoc]
    | none =>
      have hstep : ensureStep store eid ⟨p, res⟩ sub =
          ⟨p ++ [freshDelivery (store.next_delivery_id + p.length) eid sub],
           res ++ [freshDelivery (store.next_delivery_id + p.length) eid sub]⟩ := by
        unfold ensureStep
        unfold foundPair at hf
        rw [hf]
        rfl
      rw [hstep, ih]
      simp [pendingDels, resultDels, hf, List.append_assoc, Nat.add_assoc,
        Nat.add_comm 1 p.length]

theorem ensure_deliveries_char (store : Store) (eid : Nat) (subs : List Nat) :
    ensure_deliveries store eid subs =
      if deliveryInsertOk store.deliveries
          (pendingDels store eid store.next_delivery_id subs) then
        some ({ store with
                deliveries := store.deliveries ++
                  pendingDels store eid store.next_delivery_id subs
                next_delivery_id := store.next_delivery_id +
                  (pendingDels store eid store.next_delivery_id subs).length },
              resultDels store eid store.next_delivery_id subs)
      else none := by
  unfold ensure_deliveries ensure_deliveries_fn
  rw [ensureFold_char]
  simp

theorem hasPair_append (a b : List EventDelivery) (e s : Nat) :
    hasPair (a ++ b) e s = (hasPair a e s || hasPair b e s) := by
  simp [hasPair, List.any_append]

theorem foundPair_none_iff (store : Store) (eid sub : Nat) :
    foundPair store eid sub = none ↔ hasPair store.deliveries eid sub = false := by
  unfold foundPair hasPair
  rw [List.find?_eq_none, List.any_eq_false]

theorem mem_pendingDels (store : Store) (eid : Nat) (subs : List Nat) :
    ∀ (b : Nat) (d : EventDelivery), d ∈ pendingDels store eid b subs →
      d.event_id = eid ∧ d.subscriber_id ∈ subs ∧
      hasPair store.deliveries eid d.subscriber_id = false ∧
      d.first_sent_at = none ∧ d.last_sent_at = none ∧
      d.reminder_sent_at = none ∧ d.confirmed_at = none ∧ b ≤ d.id := by
  induction subs with
  | nil => intro b d hd; simp [pendingDels] at hd
  | cons sub rest ih =>
    intro b d hd
    cases hf : foundPair store eid sub with
    | some d0 =>
      rw [pendingDels, hf] at hd
      obtain ⟨h1, h2, h3, h4, h5, h6, h7, h8⟩ := ih b d hd
      exact ⟨h1, List.mem_cons_of_mem _ h2, h3, h4, h5, h6, h7, h8⟩
    | none =>
      rw [pendingDels, hf] at hd
      rcases List.mem_cons.mp hd with rfl | hd'
      · refine ⟨rfl, by simp [freshDelivery], ?_, rfl, rfl, rfl, rfl, Nat.le_refl _⟩
        simpa [freshDelivery] using foundPair_none_iff store eid sub |>.mp hf
      · obtain ⟨h1, h2, h3, h4, h5, h6, h7, h8⟩ := ih (b + 1) d hd'
        exact ⟨h1, List.mem_cons_of_mem _ h2, h3, h4, h5, h6, h7,
          Nat.le_of_succ_le h8⟩

theorem pendingDels_id_lt (store : Store) (eid : Nat) (subs : List Nat) :
    ∀ (b : Nat) (d : EventDelivery), d ∈ pendingDels store eid b subs →
      d.id < b + (pendingDels store eid b subs).length := by
  induction subs with
  | nil => intro b d hd; simp [pendingDels] at hd
  | cons sub rest ih =>
    intro b d hd
    cases hf : foundPair store eid sub with
    | some d0 =>
      rw [pendingDels, hf] at hd ⊢
      exact ih b d hd
    | none =>
      rw [pendingDels, hf] at hd ⊢
      rcases List.mem_cons.mp hd with rfl | hd'
      · simp only [freshDelivery, List.length_cons]
        omega
      · have := ih (b + 1) d hd'
        simp only [List.length_cons]
        omega

theorem pairsOf_append (a b : List EventDelivery) :
    pairsOf (a ++ b) = pairsOf a ++ pairsOf b := by
  simp [pairsOf]

theorem mem_pairsOf_iff (ds : List EventDelivery) (e s : Nat) :
    (e, s) ∈ pairsOf ds ↔ hasPair ds e s = true := by
  simp only [pairsOf, hasPair, List.mem_map, List.any_eq_true, Bool.and_eq_true,
    beq_iff_eq, Prod.mk.injEq]

theorem pairsOf_pendingDels (store : Store) (eid : Nat) (subs : List Nat) :
    ∀ b : Nat,
    pairsOf (pendingDels store eid b subs) =
      (subs.filter (fun s => !(hasPair store.deliveries eid s))).map
        (fun s => (eid, s)) := by
  induction subs with
  | nil => intro b; simp [pendingDels, pairsOf]
  | cons sub rest ih =>
    intro b
    cases hf : foundPair store eid sub with
    | some d0 =>
      have hp : hasPair store.deliveries eid sub = true := by
        by_contra hh
        have hnone : foundPair store eid sub = none :=
          (foundPair_none_iff store eid sub).mpr (by simpa using hh)
        rw [hnone] at hf
        cases hf
      rw [pendingDels, hf, List.filter_cons]
      simp [hp, ih]
    | none =>
      have hp : hasPair store.deliveries eid sub = false :=
        (foundPair_none_iff store eid sub).mp hf
      rw [pendingDels, hf, List.filter_cons]
      simp [hp, pairsOf, freshDelivery]
      simpa [pairsOf] using ih (b + 1)

theorem hasPair_pendingDels_iff (store : Store) (eid : Nat) (subs : List Nat)
    (b : Nat) (e s : Nat) :
    hasPair (pendingDels store eid b subs) e s = true ↔
      (e = eid ∧ s ∈ subs ∧ hasPair store.deliveries eid s = false) := by
  rw [← mem_pairsOf_iff, pairsOf_pendingDels]
  simp only [List.mem_map, List.mem_filter, Prod.mk.injEq, Bool.not_eq_true']
  constructor
  · rintro ⟨x, ⟨hx, hxp⟩, he, rfl⟩
    exact ⟨he.symm, hx, hxp⟩
  · rintro ⟨rfl, hs, hp⟩
    exact ⟨s, ⟨hs, hp⟩, rfl, rfl⟩

theorem ensure_call_props (store : Store) (eid : Nat) (subs : List Nat)
    (hwf : (pairsOf store.deliveries).Nodup) (hnd : subs.Nodup) :
    ∃ st2 res, ensure_deliveries store eid subs = some (st2, res) ∧
      st2.deliveries = store.deliveries ++
        pendingDels store eid store.next_delivery_id subs ∧
      (pairsOf st2.deliveries).Nodup ∧
      (∀ e s, hasPair st2.deliveries e s = true ↔
        (hasPair store.deliveries e s = true ∨ (e = eid ∧ s ∈ subs))) := by
  set pend := pendingDels store eid store.next_delivery_id subs with hpend
  have hpendPairs : pairsOf pend =
      (subs.filter (fun s => !(hasPair store.deliveries eid s))).map
        (fun s => (eid, s)) := pairsOf_pendingDels store eid subs _
  have hpendNodup : (pairsOf pend).Nodup := by
    rw [hpendPairs]
    exact ((hnd.filter _).map (fun a b h => by injection h))
  have hok : deliveryInsertOk store.deliveries pend = true := by
    unfold deliveryInsertOk
    rw [Bool.and_eq_true]
    constructor
    · simpa [pairsOf] using hpendNodup
    · rw [List.all_eq_true]
      intro p hp
      obtain ⟨h1, _, h3, _⟩ := mem_pendingDels store eid subs _ p hp
      have : store.deliveries.any (fun d =>
          d.event_id == p.event_id && d.subscriber_id == p.subscriber_id) = false := by
        have : hasPair store.deliveries p.event_id p.subscriber_id = false := by
          rw [h1]; exact h3
        simpa [hasPair] using this
      simp [this]
  refine ⟨_, _, by rw [ensure_deliveries_char, ← hpend, if_pos hok], rfl, ?_, ?_⟩
  · rw [pairsOf_append]
    refine hwf.append hpendNodup ?_
    intro pr hpr hpr'
    obtain ⟨e, s⟩ := pr
    have h1 : hasPair store.deliveries e s = true := (mem_pairsOf_iff _ e s).mp hpr
    have h2 : hasPair pend e s = true := (mem_pairsOf_iff _ e s).mp hpr'
    obtain ⟨rfl, _, h4⟩ := (hasPair_pendingDels_iff store eid subs _ e s).mp h2
    rw [h1] at h4
    cases h4
  · intro e s
    rw [hasPair_append, Bool.or_eq_true, hasPair_pendingDels_iff]
    constructor
    · rintro (h | ⟨rfl, hs, _⟩)
      · exact Or.inl h
      · exact Or.inr ⟨rfl, hs⟩
    · rintro (h | ⟨rfl, hs⟩)
      · exact Or.inl h
      · cases hh : hasPair store.deliveries e s with
        | true => exact Or.inl rfl
        | false => exact Or.inr ⟨rfl, hs, rfl⟩

theorem applyEnsures_props (calls : List (Nat × List Nat)) :
    ∀ (store : Store), (pairsOf store.deliveries).Nodup →
    (∀ c ∈ calls, c.2.Nodup) →
    (pairsOf (applyEnsures store calls).deliveries).Nodup ∧
    (∀ e s, hasPair store.deliveries e s = true →
      hasPair (applyEnsures store calls).deliveries e s = true) ∧
    (∀ c ∈ calls, ∀ s ∈ c.2,
      hasPair (applyEnsures store calls).deliveries c.1 s = true) ∧
    (∀ d0 ∈ store.deliveries, d0 ∈ (applyEnsures store calls).deliveries) := by
  induction calls with
  | nil =>
    intro store hwf _
    exact ⟨hwf, fun e s h => h, by simp, fun d0 h => h⟩
  | cons c cs ih =>
    intro store hwf hnd
    obtain ⟨st2, res, hok, hdel, hnd2, hiff⟩ :=
      ensure_call_props store c.1 c.2 hwf (hnd c (by simp))
    have hstep : applyEnsures store (c :: cs) = applyEnsures st2 cs := by
      unfold applyEnsures
      rw [List.foldl_cons]
      show List.foldl applyEnsure (applyEnsure store c) cs = _
      unfold applyEnsure
      rw [hok]
    obtain ⟨ih1, ih2, ih3, ih4⟩ := ih st2 hnd2 (fun c' hc' => hnd c' (by simp [hc']))
    refine ⟨hstep ▸ ih1, ?_, ?_, ?_⟩
    · intro e s h
      rw [hstep]
      exact ih2 e s ((hiff e s).mpr (Or.inl h))
    · intro c' hc' s hs
      rw [hstep]
      rcases List.mem_cons.mp hc' with rfl | hc'
      · exact ih2 c'.1 s ((hiff c'.1 s).mpr (Or.inr ⟨rfl, hs⟩))
      · exact ih3 c' hc' s hs
    · intro d0 h0
      rw [hstep]
      exact ih4 d0 (by rw [hdel]; exact List.mem_append_left _ h0)

/-- C2 counterexample.  A single `ensure_deliveries` call whose
subscriber iterable repeats a subscriber creates two pending rows for
the same `(event_id, subscriber_id)` pair — the committed-row lookup
cannot see the first pending insert because the session has
`autoflush=False` — so the commit violates `uq_event_subscriber` and the
transaction rolls back: the final ledger holds zero rows for the pair,
not exactly one. -/
theorem C2_counterexample :
    ensure_deliveries ⟨[], [], [], 0, 5⟩ 1 [1, 1] = none ∧
    pairsOf (ensure_deliveries_fn ⟨[], [], [], 0, 5⟩ 1 [1, 1]).pending =
      [(1, 1), (1, 1)] ∧
    hasPair (⟨[], [], [], 0, 5⟩ : Store).deliveries 1 1 = false := by
  decide

/-- C2 amended.  For any sequence of `ensure_deliveries` transactions
whose subscriber lists have no repeated subscriber, starting from a
ledger without duplicate pairs: the final ledger still has no duplicate
`(event_id, subscriber_id)` pairs (so at most one row per pair), every
ensured pair has a row (so exactly one row per distinct ensured pair),
and existing rows are returned/kept rather than duplicated.  A call
whose iterable repeats a subscriber instead fails at commit and adds
nothing. -/
theorem C2_at_most_one_delivery_row (store : Store)
    (calls : List (Nat × List Nat))
    (hwf : (pairsOf store.deliveries).Nodup)
    (hnd : ∀ c ∈ calls, c.2.Nodup) :
    (pairsOf (applyEnsures store calls).deliveries).Nodup ∧
    (∀ c ∈ calls, ∀ s ∈ c.2,
      hasPair (applyEnsures store calls).deliveries c.1 s = true) ∧
    (∀ d0 ∈ store.deliveries, d0 ∈ (applyEnsures store calls).deliveries) := by
  obtain ⟨h1, _, h3, h4⟩ := applyEnsures_props calls store hwf hnd
  exact ⟨h1, h3, h4⟩

/-- Witness for the amended C2 theorem at a concrete store and call
sequence with overlapping pairs. -/
theorem C2_at_most_one_delivery_row_witness :
    (pairsOf (⟨[], [], [⟨0, 1, 1, some 2, some 2, none, none⟩], 3, 1⟩ :
        Store).deliveries).Nodup ∧
    (∀ c ∈ [((1 : Nat), [1, 2]), ((1 : Nat), [2])], c.2.Nodup) ∧
    ((pairsOf (applyEnsures ⟨[], [], [⟨0, 1, 1, some 2, some 2, none, none⟩], 3, 1⟩
        [(1, [1, 2]), (1, [2])]).deliveries).Nodup ∧
     (∀ c ∈ [((1 : Nat), [1, 2]), ((1 : Nat), [2])], ∀ s ∈ c.2,
       hasPair (applyEnsures ⟨[], [], [⟨0, 1, 1, some 2, some 2, none, none⟩], 3, 1⟩
         [(1, [1, 2]), (1, [2])]).deliveries c.1 s = true) ∧
     (∀ d0 ∈ (⟨[], [], [⟨0, 1, 1, some 2, some 2, none, none⟩], 3, 1⟩ :
         Store).deliveries,
       d0 ∈ (applyEnsures ⟨[], [], [⟨0, 1, 1, some 2, some 2, none, none⟩], 3, 1⟩
         [(1, [1, 2]), (1, [2])]).deliveries)) :=
  ⟨by decide, by decide,
   C2_at_most_one_delivery_row _ _ (by decide) (by decide)⟩

theorem sync_events_frame (store : Store) (S : List ScrapedEvent) (now : Int)
    (r : SyncResult) (h : sync_events store S now = some r) :
    r.store.deliveries = store.deliveries ∧
    r.store.subscribers = store.subscribers ∧
    r.store.next_delivery_id = store.next_delivery_id := by
  rw [sync_events_char] at h
  split at h
  · cases h
    exact ⟨rfl, rfl, rfl⟩
  · cases h

theorem ensure_deliveries_frame (store : Store) (eid : Nat) (subs : List Nat)
    (p : Store × List EventDelivery) (h : ensure_deliveries store eid subs = some p) :
    p.1.deliveries = store.deliveries ++
      pendingDels store eid store.next_delivery_id subs ∧
    p.1.next_delivery_id = store.next_delivery_id +
      (pendingDels store eid store.next_delivery_id subs).length := by
  rw [ensure_deliveries_char] at h
  split at h
  · cases h
    exact ⟨rfl, rfl⟩
  · cases h

theorem applyOp_preserves (did : Nat) (store : Store) (op : CoreOp)
    (h0 : did < store.next_delivery_id)
    (h1 : ∀ x ∈ store.deliveries, x.id = did → x.confirmed_at ≠ none)
    (h2 : ∀ x ∈ store.deliveries, x.id < store.next_delivery_id) :
    did < (applyOp store op).next_delivery_id ∧
    (∀ x ∈ (applyOp store op).deliveries, x.id = did → x.confirmed_at ≠ none) ∧
    (∀ x ∈ (applyOp store op).deliveries, x.id < (applyOp store op).next_delivery_id) := by
  cases op with
  | markSent did' w r =>
    refine ⟨h0, ?_, ?_⟩
    · intro x hx hid
      obtain ⟨y, hy, rfl⟩ := List.mem_map.mp hx
      by_cases hc : (y.id == did') = true
      · rw [if_pos hc] at hid ⊢
        rw [mark_sent_id] at hid
        rw [mark_sent_confirmed_at]
        exact h1 y hy hid
      · rw [if_neg hc] at hid ⊢
        exact h1 y hy hid
    · intro x hx
      obtain ⟨y, hy, rfl⟩ := List.mem_map.mp hx
      show _ < store.next_delivery_id
      by_cases hc : (y.id == did') = true
      · rw [if_pos hc, mark_sent_id]
        exact h2 y hy
      · rw [if_neg hc]
        exact h2 y hy
  | syncEvents S n =>
    cases hs : sync_events store S n with
    | none =>
      have happ : applyOp store (CoreOp.syncEvents S n) = store := by
        simp only [applyOp]
        rw [hs]
      rw [happ]
      exact ⟨h0, h1, h2⟩
    | some r =>
      have happ : applyOp store (CoreOp.syncEvents S n) = r.store := by
        simp only [applyOp]
        rw [hs]
      obtain ⟨hd, _, hn⟩ := sync_events_frame store S n r hs
      rw [happ, hd, hn]
      exact ⟨h0, h1, h2⟩
  | ensureDeliveries eid subs =>
    cases he : ensure_deliveries store eid subs with
    | none =>
      have happ : applyOp store (CoreOp.ensureDeliveries eid subs) = store := by
        simp only [applyOp]
        rw [he]
      rw [happ]
      exact ⟨h0, h1, h2⟩
    | some p =>
      have happ : applyOp store (CoreOp.ensureDeliveries eid subs) = p.1 := by
        simp only [applyOp]
        rw [he]
      obtain ⟨hd, hn⟩ := ensure_deliveries_frame store eid subs p he
      rw [happ, hd, hn]
      refine ⟨Nat.lt_of_lt_of_le h0 (Nat.le_add_right _ _), ?_, ?_⟩
      · intro x hx hid
        rcases List.mem_append.mp hx with hx' | hx'
        · exact h1 x hx' hid
        · obtain ⟨_, _, _, _, _, _, _, hb⟩ :=
            mem_pendingDels store eid subs _ x hx'
          omega
      · intro x hx
        rcases List.mem_append.mp hx with hx' | hx'
        · exact Nat.lt_of_lt_of_le (h2 x hx') (Nat.le_add_right _ _)
        · exact pendingDels_id_lt store eid subs _ x hx'

/-- C9.  Confirmation is terminal: once a delivery's `confirmed_at` is
set, no subsequent sequence of core operations (`mark_sent`,
`sync_events`, `ensure_deliveries`) can make that delivery appear in a
later `pending_reminders` result, regardless of `reminder_sent_at` —
none of these operations clears `confirmed_at`, and the
`pending_reminders` query requires `confirmed_at IS NULL`
(`services.py`, line 144). -/
theorem C9_confirmation_terminal (store : Store) (d : EventDelivery)
    (ops : List CoreOp) (now within_days : Int) (excl : List String)
    (hmem : d ∈ store.deliveries) (hconf : d.confirmed_at ≠ none)
    (hids : ∀ x ∈ store.deliveries, x.id < store.next_delivery_id)
    (hnodup : (store.deliveries.map (·.id)).Nodup) :
    (pending_reminders (applyOps store ops) now within_days excl).all
      (fun x => x.id != d.id) = true := by
  have hinj := List.inj_on_of_nodup_map hnodup
  have init1 : ∀ x ∈ store.deliveries, x.id = d.id → x.confirmed_at ≠ none := by
    intro x hx hxd
    have hxeq : x = d := hinj hx hmem hxd
    rw [hxeq]
    exact hconf
  have init0 : d.id < store.next_delivery_id := hids d hmem
  have main : ∀ (ops' : List CoreOp) (st : Store),
      d.id < st.next_delivery_id →
      (∀ x ∈ st.deliveries, x.id = d.id → x.confirmed_at ≠ none) →
      (∀ x ∈ st.deliveries, x.id < st.next_delivery_id) →
      ∀ x ∈ (applyOps st ops').deliveries, x.id = d.id → x.confirmed_at ≠ none := by
    intro ops'
    induction ops' with
    | nil => intro st _ p1 _; exact p1
    | cons op rest ih =>
      intro st q0 q1 q2
      obtain ⟨r0, r1, r2⟩ := applyOp_preserves d.id st op q0 q1 q2
      exact ih (applyOp st op) r0 r1 r2
  rw [List.all_eq_true]
  intro x hx
  simp only [pending_reminders] at hx
  rw [List.mem_filter] at hx
  obtain ⟨hxm, hpred⟩ := hx
  have hxconf : x.confirmed_at = none := by
    rcases Bool.and_eq_true .. |>.mp hpred with ⟨hl, _⟩
    rcases Bool.and_eq_true .. |>.mp (Bool.and_eq_true .. |>.mp hpred).1 with ⟨h1, _⟩
    exact (beq_iff_eq ..).mp h1
  have hne : x.id ≠ d.id := by
    intro hxd
    exact main ops store init0 init1 hids x hxm hxd hxconf
  simpa using hne

/-- Witness for C9 at a concrete confirmed delivery, with a subsequent
reminder-flagged `mark_sent`, an `ensure_deliveries`, and a
`sync_events` all applied. -/
theorem C9_confirmation_terminal_witness :
    ((⟨0, 1, 1, some 1, some 1, none, some 2⟩ : EventDelivery) ∈
      (⟨[⟨1, "e", "E", none, none, none, none, some 100, true, some 0, none⟩],
        [], [⟨0, 1, 1, some 1, some 1, none, some 2⟩], 2, 1⟩ : Store).deliveries) ∧
    ((⟨0, 1, 1, some 1, some 1, none, some 2⟩ : EventDelivery).confirmed_at ≠ none) ∧
    (∀ x ∈ (⟨[⟨1, "e", "E", none, none, none, none, some 100, true, some 0, none⟩],
        [], [⟨0, 1, 1, some 1, some 1, none, some 2⟩], 2, 1⟩ : Store).deliveries,
      x.id < 1) ∧
    ((pending_reminders
        (applyOps
          ⟨[⟨1, "e", "E", none, none, none, none, some 100, true, some 0, none⟩],
           [], [⟨0, 1, 1, some 1, some 1, none, some 2⟩], 2, 1⟩
          [CoreOp.markSent 0 7 true, CoreOp.ensureDeliveries 1 [1, 2],
           CoreOp.syncEvents [] 9])
        50 3 []).all (fun x => x.id != 0) = true) :=
  ⟨by decide, by decide, by decide,
   C9_confirmation_terminal
     ⟨[⟨1, "e", "E", none, none, none, none, some 100, true, some 0, none⟩],
      [], [⟨0, 1, 1, some 1, some 1, none, some 2⟩], 2, 1⟩
     ⟨0, 1, 1, some 1, some 1, none, some 2⟩
     [CoreOp.markSent 0 7 true, CoreOp.ensureDeliveries 1 [1, 2],
      CoreOp.syncEvents [] 9]
     50 3 [] (by decide) (by decide) (by decide) (by decide)⟩

theorem passEvents_eq_map (es : List Event) (now : Int) (S : List ScrapedEvent) :
    passEvents es now S = es.map (passF S now) := rfl

theorem passF_source_id (S : List ScrapedEvent) (now : Int) (e : Event) :
    (passF S now e).source_id = e.source_id := by
  unfold passF
  split <;> rfl

theorem deactivate_source_id (now : Int) (seen : List String) (e : Event) :
    (deactivate now seen e).source_id = e.source_id := by
  unfold deactivate
  split <;> rfl

theorem presentB_append (a b : List Event) (s : ScrapedEvent) :
    presentB (a ++ b) s = (presentB a s || presentB b s) := by
  simp [presentB, List.any_append]

theorem presentB_congr_sid (es : List Event) (s1 s2 : ScrapedEvent)
    (h : _source_id s1 = _source_id s2) : presentB es s1 = presentB es s2 := by
  unfold presentB
  rw [h]

theorem lastOcc_mem (sid : String) (S : List ScrapedEvent) (s : ScrapedEvent)
    (h : lastOcc sid S = some s) : s ∈ S := by
  induction S with
  | nil => simp [lastOcc] at h
  | cons s0 rest ih =>
    cases hr : lastOcc sid rest with
    | some s' =>
      rw [lastOcc_cons_some sid s0 rest s' hr] at h
      cases h
      exact List.mem_cons_of_mem _ (ih hr)
    | none =>
      rw [lastOcc_cons_none sid s0 rest hr] at h
      by_cases h0 : (_source_id s0 == sid) = true
      · rw [if_pos h0] at h
        cases h
        exact List.mem_cons_self _ _
      · rw [if_neg h0] at h
        cases h

theorem nodupStr_cons (x : String) (xs : List String) :
    nodupStr (x :: xs) = true ↔ x ∉ xs ∧ nodupStr xs = true := by
  simp [nodupStr]

theorem insertOk_nil (c : List String) : insertOk c [] = true := rfl

theorem pendingOf_eq_nil (es : List Event) (now : Int) (S : List ScrapedEvent)
    (h : ∀ s ∈ S, presentB es s = true) :
    ∀ b, pendingOf es now b S = [] := by
  induction S with
  | nil => intro b; rfl
  | cons s0 rest ih =>
    intro b
    rw [pendingOf]
    rw [if_pos (h s0 (List.mem_cons_self _ _))]
    exact ih (fun s hs => h s (List.mem_cons_of_mem _ hs)) b

theorem pendingOf_present (es : List Event) (now : Int) (S : List ScrapedEvent)
    (s : ScrapedEvent) (hs : s ∈ S) (habs : presentB es s = false) :
    ∀ b, presentB (pendingOf es now b S) s = true := by
  induction S with
  | nil => cases hs
  | cons s0 rest ih =>
    intro b
    rcases List.mem_cons.mp hs with rfl | hs'
    · rw [pendingOf, if_neg (by simp [habs])]
      simp [presentB, newEvent]
    · by_cases hp0 : presentB es s0 = true
      · rw [pendingOf, if_pos hp0]
        exact ih hs' b
      · rw [pendingOf, if_neg hp0]
        rw [show presentB ({ newEvent s0 now with id := b } ::
              pendingOf es now (b + 1) rest) s =
            ((_source_id s0 == _source_id s) || presentB (pendingOf es now (b + 1) rest) s)
          from by simp [presentB, newEvent]]
        rw [ih hs' (b + 1)]
        simp

theorem mem_sids_of_presentB (xs : List Event) (s : ScrapedEvent)
    (h : presentB xs s = true) : _source_id s ∈ xs.map (·.source_id) := by
  rcases List.any_eq_true.mp h with ⟨x, hx, hxx⟩
  exact List.mem_map.mpr ⟨x, hx, (beq_iff_eq ..).mp hxx⟩

theorem pendingOf_lastOcc (es : List Event) (now : Int) (S : List ScrapedEvent) :
    ∀ b, nodupStr ((pendingOf es now b S).map (·.source_id)) = true →
    ∀ e ∈ pendingOf es now b S,
      ∃ s, lastOcc e.source_id S = some s ∧
        e = { newEvent s now with id := e.id } := by
  induction S with
  | nil =>
    intro b _ e he
    simp [pendingOf] at he
  | cons s0 rest ih =>
    intro b hnd e he
    by_cases hp0 : presentB es s0 = true
    · rw [pendingOf, if_pos hp0] at he hnd
      obtain ⟨s, hl, hsh⟩ := ih b hnd e he
      exact ⟨s, lastOcc_cons_some _ _ _ _ hl, hsh⟩
    · have hp0' : presentB es s0 = false := by simpa using hp0
      rw [pendingOf, if_neg (by simp [hp0'])] at he hnd
      rw [List.map_cons] at hnd
      obtain ⟨hnotin, hnd'⟩ := (nodupStr_cons _ _).mp hnd
      rcases List.mem_cons.mp he with rfl | he'
      · refine ⟨s0, ?_, rfl⟩
        show lastOcc (_source_id s0) (s0 :: rest) = some s0
        have hnone : lastOcc (_source_id s0) rest = none := by
          cases hro : lastOcc (_source_id s0) rest with
          | none => rfl
          | some s' =>
            have hsid' : _source_id s' = _source_id s0 := lastOcc_sid _ _ _ hro
            have hmem' : s' ∈ rest := lastOcc_mem _ _ _ hro
            have habs' : presentB es s' = false := by
              rw [presentB_congr_sid es s' s0 hsid']
              exact hp0'
            have hin : _source_id s' ∈
                (pendingOf es now (b + 1) rest).map (·.source_id) :=
              mem_sids_of_presentB _ _
                (pendingOf_present es now rest s' hmem' habs' (b + 1))
            rw [hsid'] at hin
            exact absurd hin hnotin
        rw [lastOcc_cons_none _ _ _ hnone]
        simp
      · obtain ⟨s, hl, hsh⟩ := ih (b + 1) hnd' e he'
        exact ⟨s, lastOcc_cons_some _ _ _ _ hl, hsh⟩

theorem sync_events_nil (store : Store) (now : Int) :
    sync_events store [] now = some ⟨store, [], []⟩ := by
  rw [sync_events_char]
  simp [insertOk, nodupStr, pendingOf, syncedEvents, createdSids, updatedSids,
    passEvents_nil]

theorem updateEvent_newEvent (s : ScrapedEvent) (now : Int) (k : Nat) :
    updateEvent s now ({ newEvent s now with id := k }) =
      { newEvent s now with id := k } := rfl

theorem contains_seenIds_of_lastOcc (sid : String) (S : List ScrapedEvent)
    (s : ScrapedEvent) (h : lastOcc sid S = some s) :
    (seenIds S).contains sid = true := by
  rw [← lastOcc_isSome_eq_contains, h]
  rfl

theorem not_contains_seenIds_of_lastOcc (sid : String) (S : List ScrapedEvent)
    (h : lastOcc sid S = none) :
    (seenIds S).contains sid = false := by
  rw [← lastOcc_isSome_eq_contains, h]
  rfl

theorem elem_step (e : Event) (S : List ScrapedEvent) (now1 now2 : Int)
    (hinv : SyncedInv S now1 e) :
    deactivate now2 (seenIds S) (passF S now2 e) = refreshSeen (seenIds S) now2 e := by
  unfold passF refreshSeen
  cases hl : lastOcc e.source_id S with
  | some s =>
    have hcont : (seenIds S).contains e.source_id = true :=
      contains_seenIds_of_lastOcc _ _ _ hl
    have hcond : ((updateEvent s now2 e).is_active &&
        !((seenIds S).contains (updateEvent s now2 e).source_id)) = false := by
      rw [updateEvent_source_id, hcont]
      simp
    rw [show deactivate now2 (seenIds S) (updateEvent s now2 e) =
        updateEvent s now2 e from by
      unfold deactivate
      rw [if_neg (by rw [hcond]; simp)]]
    rw [if_pos hcont]
    have he := hinv.1 s hl
    calc updateEvent s now2 e
        = updateEvent s now2 (updateEvent s now1 e) := by rw [← he]
      _ = { updateEvent s now1 e with last_seen_at := some now2 } :=
          updateEvent_refresh s now1 now2 e
      _ = { e with last_seen_at := some now2 } := by rw [← he]
  | none =>
    have hcont : (seenIds S).contains e.source_id = false :=
      not_contains_seenIds_of_lastOcc _ _ hl
    have hact : e.is_active = false := hinv.2 hl
    rw [if_neg (by rw [hcont]; simp)]
    unfold deactivate
    rw [if_neg (by simp [hact])]

theorem presentB_map_sid (f : Event → Event)
    (hf : ∀ e, (f e).source_id = e.source_id) (es : List Event)
    (s : ScrapedEvent) : presentB (es.map f) s = presentB es s :=
  any_sid_map f hf es (_source_id s)

theorem createdSids_eq_nil (es : List Event) (S : List ScrapedEvent)
    (h : ∀ s ∈ S, presentB es s = true) : createdSids es S = [] := by
  induction S with
  | nil => rfl
  | cons s0 rest ih =>
    unfold createdSids
    rw [List.filter_cons, if_neg (by simp [h s0 (List.mem_cons_self _ _)])]
    exact ih (fun s hs => h s (List.mem_cons_of_mem _ hs))

theorem updatedSids_eq_seenIds (es : List Event) (S : List ScrapedEvent)
    (h : ∀ s ∈ S, presentB es s = true) : updatedSids es S = seenIds S := by
  induction S with
  | nil => rfl
  | cons s0 rest ih =>
    unfold updatedSids seenIds
    rw [List.filter_cons, if_pos (by simp [h s0 (List.mem_cons_self _ _)])]
    rw [List.map_cons]
    have := ih (fun s hs => h s (List.mem_cons_of_mem _ hs))
    unfold updatedSids seenIds at this
    rw [this, List.map_cons]

theorem syncedEvents_inv (store : Store) (S : List ScrapedEvent) (now1 : Int)
    (hS : S ≠ [])
    (hnd : nodupStr ((pendingOf store.events now1 store.next_event_id S).map
      (·.source_id)) = true) :
    ∀ e ∈ syncedEvents store S now1, SyncedInv S now1 e := by
  intro e he
  unfold syncedEvents at he
  rw [if_neg (by simp [hS])] at he
  rcases List.mem_append.mp he with hA | hB
  · rw [passEvents_eq_map, List.map_map] at hA
    obtain ⟨e0, he0, rfl⟩ := List.mem_map.mp hA
    show SyncedInv S now1 (deactivate now1 (seenIds S) (passF S now1 e0))
    cases hl0 : lastOcc e0.source_id S with
    | some s =>
      have hcont : (seenIds S).contains e0.source_id = true :=
        contains_seenIds_of_lastOcc _ _ _ hl0
      have hpass : passF S now1 e0 = updateEvent s now1 e0 := by
        unfold passF
        rw [hl0]
      have hde : deactivate now1 (seenIds S) (updateEvent s now1 e0) =
          updateEvent s now1 e0 := by
        unfold deactivate
        have hcond : ((updateEvent s now1 e0).is_active &&
            !((seenIds S).contains (updateEvent s now1 e0).source_id)) = false := by
          rw [updateEvent_source_id, hcont]
          simp
        rw [if_neg (by rw [hcond]; simp)]
      rw [hpass, hde]
      constructor
      · intro s' hl'
        rw [updateEvent_source_id, hl0] at hl'
        cases hl'
        exact (updateEvent_absorb s s now1 now1 e0).symm
      · intro hl'
        rw [updateEvent_source_id, hl0] at hl'
        cases hl'
    | none =>
      have hpass : passF S now1 e0 = e0 := by
        unfold passF
        rw [hl0]
      rw [hpass]
      have hcont : (seenIds S).contains e0.source_id = false :=
        not_contains_seenIds_of_lastOcc _ _ hl0
      constructor
      · intro s' hl'
        rw [deactivate_source_id, hl0] at hl'
        cases hl'
      · intro _
        unfold deactivate
        by_cases ha : e0.is_active = true
        · rw [if_pos (by rw [ha, hcont]; rfl)]
        · rw [if_neg (by rw [(by simpa using ha : e0.is_active = false)]; simp)]
          simpa using ha
  · obtain ⟨s, hl, hsh⟩ :=
      pendingOf_lastOcc store.events now1 S store.next_event_id hnd e hB
    constructor
    · intro s' hl'
      rw [hl] at hl'
      cases hl'
      conv_lhs => rw [hsh]
      conv_rhs => rw [hsh, updateEvent_newEvent]
    · intro hl'
      rw [hl] at hl'
      cases hl'

theorem syncedEvents_present (store : Store) (S : List ScrapedEvent) (now1 : Int)
    (hS : S ≠ []) (s : ScrapedEvent) (hs : s ∈ S) :
    presentB (syncedEvents store S now1) s = true := by
  unfold syncedEvents
  rw [if_neg (by simp [hS])]
  rw [presentB_append, Bool.or_eq_true]
  by_cases hp : presentB store.events s = true
  · left
    rw [passEvents_eq_map, List.map_map]
    rw [presentB_map_sid _ (fun e => by
      simp [Function.comp, deactivate_source_id, passF_source_id])]
    exact hp
  · right
    exact pendingOf_present store.events now1 S s hs (by simpa using hp) _

/-- C1 counterexample.  For a snapshot that repeats one new identity
(the same scraped item twice), the `sync_events` loop creates two
pending rows with the same `source_id` — the second `select` cannot see
the first pending insert (`autoflush=False`) — so the commit violates
the unique constraint on `events.source_id` and the transaction rolls
back.  The store is unchanged, hence the second, identical run behaves
the same: its `created` list (the value `sync_events` returns) is
`[sid, sid]`, not empty, and its commit also fails. -/
theorem C1_counterexample :
    sync_events ⟨[], [], [], 1, 1⟩
      [⟨"a", "t", none, none, none, none⟩, ⟨"a", "t", none, none, none, none⟩]
      0 = none ∧
    (sync_events_fn ⟨[], [], [], 1, 1⟩
      [⟨"a", "t", none, none, none, none⟩, ⟨"a", "t", none, none, none, none⟩]
      1).created = ["a|t|", "a|t|"] ∧
    (sync_events_fn ⟨[], [], [], 1, 1⟩
      [⟨"a", "t", none, none, none, none⟩, ⟨"a", "t", none, none, none, none⟩]
      1).created ≠ [] := by
  decide

theorem syncedEvents_all_present (st : Store) (S : List ScrapedEvent)
    (now1 now2 : Int) (hS : S ≠ [])
    (hpres : ∀ s ∈ S, presentB st.events s = true)
    (hinv : ∀ e ∈ st.events, SyncedInv S now1 e) :
    syncedEvents st S now2 = st.events.map (refreshSeen (seenIds S) now2) := by
  unfold syncedEvents
  rw [if_neg (by simp [hS]), pendingOf_eq_nil st.events now2 S hpres _,
    List.append_nil, passEvents_eq_map, List.map_map]
  apply List.map_congr_left
  intro e he
  exact elem_step e S now1 now2 (hinv e he)

/-- C1 amended.  For every starting store (with its unique `source_id`
column intact) and every snapshot whose first `sync_events` transaction
commits successfully, running `sync_events` again on the same snapshot
commits as well, produces an empty `created` list (`updated` holds every
snapshot identity), and leaves the Event Store identical except that the
rows whose identity is in the snapshot get `last_seen_at` refreshed to
the second run's timestamp.  (A first run whose commit fails — possible
only when the snapshot repeats an identity that is new to the store —
rolls back and produces no committed state at all.) -/
theorem C1_sync_idempotent (store : Store) (S : List ScrapedEvent)
    (now1 now2 : Int) (r1 : SyncResult)
    (hwf : nodupStr (store.events.map (·.source_id)) = true)
    (hok : sync_events store S now1 = some r1) :
    sync_events r1.store S now2 =
      some ⟨{ r1.store with events :=
                r1.store.events.map (refreshSeen (seenIds S) now2) },
            [], seenIds S⟩ := by
  rw [sync_events_char] at hok
  split at hok
  case isFalse => cases hok
  case isTrue hins =>
  injection hok with hok
  subst hok
  dsimp only
  by_cases hS : S = []
  · subst hS
    rw [sync_events_nil]
    have hmapid : ∀ es : List Event,
        es.map (refreshSeen ([] : List String) now2) = es := by
      intro es
      have h : ∀ e ∈ es, refreshSeen ([] : List String) now2 e = e := by
        intro e _
        unfold refreshSeen
        simp
      rw [List.map_congr_left h]
      simp
    simp [seenIds, hmapid]
  · have hnd1 : nodupStr ((pendingOf store.events now1 store.next_event_id S).map
        (·.source_id)) = true := by
      have h := hins
      unfold insertOk at h
      exact (Bool.and_eq_true .. |>.mp h).1
    have hpres : ∀ s ∈ S, presentB (syncedEvents store S now1) s = true :=
      fun s hs => syncedEvents_present store S now1 hS s hs
    have hpend2 : ∀ b, pendingOf (syncedEvents store S now1) now2 b S = [] :=
      pendingOf_eq_nil _ _ _ hpres
    rw [sync_events_char]
    dsimp only
    rw [hpend2, List.map_nil]
    rw [if_pos (insertOk_nil _)]
    have hev2 := syncedEvents_all_present
      { store with
        events := syncedEvents store S now1
        next_event_id := store.next_event_id +
          (pendingOf store.events now1 store.next_event_id S).length }
      S now1 now2 hS hpres (syncedEvents_inv store S now1 hS hnd1)
    rw [hev2]
    have hcre : createdSids (syncedEvents store S now1) S = [] :=
      createdSids_eq_nil _ _ hpres
    have hupd : updatedSids (syncedEvents store S now1) S = seenIds S :=
      updatedSids_eq_seenIds _ _ hpres
    rw [hcre, hupd]
    simp

/-- Witness for the amended C1 theorem at a concrete store and
snapshot. -/
theorem C1_sync_idempotent_witness :
    nodupStr ((⟨[], [], [], 1, 1⟩ : Store).events.map (·.source_id)) = true ∧
    sync_events ⟨[], [], [], 1, 1⟩ [⟨"a", "t", none, none, none, some 20⟩] 5 =
      some ⟨⟨[⟨1, "a|t|", "a", some "t", none, none, none, some 20,
               true, some 5, none⟩], [], [], 2, 1⟩, ["a|t|"], []⟩ ∧
    sync_events
      (⟨⟨[⟨1, "a|t|", "a", some "t", none, none, none, some 20,
           true, some 5, none⟩], [], [], 2, 1⟩, ["a|t|"], []⟩ : SyncResult).store
      [⟨"a", "t", none, none, none, some 20⟩] 7 =
      some ⟨{ (⟨⟨[⟨1, "a|t|", "a", some "t", none, none, none, some 20,
                   true, some 5, none⟩], [], [], 2, 1⟩,
                ["a|t|"], []⟩ : SyncResult).store with
              events := (⟨⟨[⟨1, "a|t|", "a", some "t", none, none, none, some 20,
                             true, some 5, none⟩], [], [], 2, 1⟩,
                          ["a|t|"], []⟩ : SyncResult).store.events.map
                (refreshSeen (seenIds [⟨"a", "t", none, none, none, some 20⟩]) 7) },
            [], seenIds [⟨"a", "t", none, none, none, some 20⟩]⟩ :=
  ⟨by decide, by decide,
   C1_sync_idempotent ⟨[], [], [], 1, 1⟩
     [⟨"a", "t", none, none, none, some 20⟩] 5 7
     ⟨⟨[⟨1, "a|t|", "a", some "t", none, none, none, some 20,
         true, some 5, none⟩], [], [], 2, 1⟩, ["a|t|"], []⟩
     (by decide) (by decide)⟩

theorem findEvent_map_append (f : Event → Event)
    (hf : ∀ x, (f x).source_id = x.source_id) (es news : List Event) :
    ∀ e ∈ es, nodupStr (es.map (·.source_id)) = true →
    findEvent (es.map f ++ news) e.source_id = some (f e) := by
  induction es with
  | nil => intro e he; cases he
  | cons e0 rest ih =>
    intro e he hnd
    rw [List.map_cons] at hnd
    obtain ⟨hnotin, hnd'⟩ := (nodupStr_cons _ _).mp hnd
    rw [List.map_cons, List.cons_append]
    unfold findEvent
    by_cases h0 : e0.source_id = e.source_id
    · have he0 : e = e0 := by
        rcases List.mem_cons.mp he with rfl | he'
        · rfl
        · exact absurd (h0 ▸ List.mem_map_of_mem (·.source_id) he') hnotin
      subst he0
      rw [List.find?_cons_of_pos _ (by simp [hf])]
    · have he' : e ∈ rest := by
        rcases List.mem_cons.mp he with rfl | he'
        · exact absurd rfl h0
        · exact he'
      rw [List.find?_cons_of_neg _ (by simp [hf, h0])]
      exact ih e he' hnd'

/-- C6 counterexample.  With one active event in the store and an empty
snapshot, `sync_events` commits successfully but skips the bulk
deactivation (`services.py`, line 91: `if seen_source_ids:`): the event,
whose identity is certainly not present in the empty snapshot, stays
`is_active = true` with `removed_at = none`, contradicting the claim
for the empty snapshot. -/
theorem C6_counterexample :
    sync_events ⟨[⟨1, "b|t|", "b", some "t", none, none, none, none,
        true, some 0, none⟩], [], [], 2, 1⟩ [] 5 =
      some ⟨⟨[⟨1, "b|t|", "b", some "t", none, none, none, none,
          true, some 0, none⟩], [], [], 2, 1⟩, [], []⟩ ∧
    (∀ e ∈ (⟨[⟨1, "b|t|", "b", some "t", none, none, none, none,
        true, some 0, none⟩], [], [], 2, 1⟩ : Store).events,
      e.is_active = true ∧ e.removed_at = none) := by
  decide

/-- C6 amended.  For every NON-empty snapshot, after a successfully
committed `sync_events`: every event that was active before the call and
whose identity is not among the snapshot's source ids is now inactive
with `removed_at = now`, and every stored event whose identity is in the
snapshot is active with `last_seen_at = now`.  (For the empty snapshot
the bulk deactivation is skipped — see the counterexample — and a run
whose commit fails rolls back entirely.) -/
theorem C6_deactivation (store : Store) (S : List ScrapedEvent) (now : Int)
    (r : SyncResult)
    (hwf : nodupStr (store.events.map (·.source_id)) = true)
    (hS : S ≠ [])
    (hok : sync_events store S now = some r) :
    (∀ e ∈ store.events, e.is_active = true →
      (seenIds S).contains e.source_id = false →
      findEvent r.store.events e.source_id =
        some { e with is_active := false, removed_at := some now }) ∧
    (∀ e ∈ store.events, (seenIds S).contains e.source_id = true →
      ∃ e2, findEvent r.store.events e.source_id = some e2 ∧
        e2.is_active = true ∧ e2.last_seen_at = some now) := by
  rw [sync_events_char] at hok
  split at hok
  case isFalse => cases hok
  case isTrue hins =>
  injection hok with hok
  subst hok
  dsimp only
  have hsidf : ∀ x : Event,
      ((deactivate now (seenIds S) ∘ passF S now) x).source_id = x.source_id := by
    intro x
    simp [Function.comp, deactivate_source_id, passF_source_id]
  have hstruct : syncedEvents store S now =
      store.events.map (deactivate now (seenIds S) ∘ passF S now) ++
      pendingOf store.events now store.next_event_id S := by
    unfold syncedEvents
    rw [if_neg (by simp [hS]), passEvents_eq_map, List.map_map]
  constructor
  · intro e he hact hcont
    rw [hstruct, findEvent_map_append _ hsidf _ _ e he hwf]
    have hl : lastOcc e.source_id S = none := by
      have hiso := lastOcc_isSome_eq_contains e.source_id S
      rw [hcont] at hiso
      exact Option.not_isSome_iff_eq_none.mp (by simp [hiso])
    show some (deactivate now (seenIds S) (passF S now e)) = _
    unfold passF
    rw [hl]
    unfold deactivate
    rw [if_pos (by rw [hact, hcont]; rfl)]
  · intro e he hcont
    rw [hstruct, findEvent_map_append _ hsidf _ _ e he hwf]
    have hl : (lastOcc e.source_id S).isSome = true := by
      rw [lastOcc_isSome_eq_contains, hcont]
    obtain ⟨s, hs⟩ := Option.isSome_iff_exists.mp hl
    refine ⟨_, rfl, ?_⟩
    show (deactivate now (seenIds S) (passF S now e)).is_active = true ∧
      (deactivate now (seenIds S) (passF S now e)).last_seen_at = some now
    unfold passF
    rw [hs]
    have hde : deactivate now (seenIds S) (updateEvent s now e) =
        updateEvent s now e := by
      unfold deactivate
      have hcond : ((updateEvent s now e).is_active &&
          !((seenIds S).contains (updateEvent s now e).source_id)) = false := by
        rw [updateEvent_source_id, hcont]
        simp
      rw [if_neg (by rw [hcond]; simp)]
    rw [hde]
    exact ⟨rfl, rfl⟩

/-- Witness for the amended C6 theorem: events A (still scraped) and B
(gone from the page); after the run, B is inactive with `removed_at`
set and A is active with a refreshed `last_seen_at`. -/
theorem C6_deactivation_witness :
    nodupStr ((⟨[⟨1, "a|t|", "a0", some "t0", none, none, none, none,
        true, some 0, none⟩,
      ⟨2, "b|t|", "b", some "t", none, none, none, none,
        true, some 0, none⟩], [], [], 3, 1⟩ : Store).events.map
      (·.source_id)) = true ∧
    ([⟨"a", "t", none, none, none, some 20⟩] : List ScrapedEvent) ≠ [] ∧
    sync_events
      ⟨[⟨1, "a|t|", "a0", some "t0", none, none, none, none,
          true, some 0, none⟩,
        ⟨2, "b|t|", "b", some "t", none, none, none, none,
          true, some 0, none⟩], [], [], 3, 1⟩
      [⟨"a", "t", none, none, none, some 20⟩] 5 =
      some ⟨⟨[⟨1, "a|t|", "a", some "t", none, none, none, some 20,
            true, some 5, none⟩,
          ⟨2, "b|t|", "b", some "t", none, none, none, none,
            false, some 0, some 5⟩], [], [], 3, 1⟩, [], ["a|t|"]⟩ ∧
    ((∀ e ∈ (⟨[⟨1, "a|t|", "a0", some "t0", none, none, none, none,
          true, some 0, none⟩,
        ⟨2, "b|t|", "b", some "t", none, none, none, none,
          true, some 0, none⟩], [], [], 3, 1⟩ : Store).events,
      e.is_active = true →
      (seenIds [⟨"a", "t", none, none, none, some 20⟩]).contains e.source_id =
        false →
      findEvent (⟨⟨[⟨1, "a|t|", "a", some "t", none, none, none, some 20,
            true, some 5, none⟩,
          ⟨2, "b|t|", "b", some "t", none, none, none, none,
            false, some 0, some 5⟩], [], [], 3, 1⟩, [],
          ["a|t|"]⟩ : SyncResult).store.events e.source_id =
        some { e with is_active := false, removed_at := some 5 }) ∧
     (∀ e ∈ (⟨[⟨1, "a|t|", "a0", some "t0", none, none, none, none,
          true, some 0, none⟩,
        ⟨2, "b|t|", "b", some "t", none, none, none, none,
          true, some 0, none⟩], [], [], 3, 1⟩ : Store).events,
      (seenIds [⟨"a", "t", none, none, none, some 20⟩]).contains e.source_id =
        true →
      ∃ e2, findEvent (⟨⟨[⟨1, "a|t|", "a", some "t", none, none, none, some 20,
            true, some 5, none⟩,
          ⟨2, "b|t|", "b", some "t", none, none, none, none,
            false, some 0, some 5⟩], [], [], 3, 1⟩, [],
          ["a|t|"]⟩ : SyncResult).store.events e.source_id = some e2 ∧
        e2.is_active = true ∧ e2.last_seen_at = some 5)) :=
  ⟨by decide, by decide, by decide,
   C6_deactivation
     ⟨[⟨1, "a|t|", "a0", some "t0", none, none, none, none,
         true, some 0, none⟩,
       ⟨2, "b|t|", "b", some "t", none, none, none, none,
         true, some 0, none⟩], [], [], 3, 1⟩
     [⟨"a", "t", none, none, none, some 20⟩] 5
     ⟨⟨[⟨1, "a|t|", "a", some "t", none, none, none, some 20,
         true, some 5, none⟩,
       ⟨2, "b|t|", "b", some "t", none, none, none, none,
         false, some 0, some 5⟩], [], [], 3, 1⟩, [], ["a|t|"]⟩
     (by decide) (by decide) (by decide)⟩
